import Mathlib

/-!
Verification development for the hybrid retrieval and ranking pipeline of the
stephyfaqllm repository (backend/app/services/search.py, backend/app/core/config.py).

The Python source is shallowly embedded: scores (Python floats used as real
numbers) are modelled as rationals, Python dicts that gain keys over the
pipeline are modelled as structures with optional fields, the external
datastore and model providers are modelled as an explicit environment, and
exceptions are modelled with Option/Except.  Each definition is translated
from the source file it names; the one definition translated from the
specification text instead is marked `Modelled from the spec`.
-/

-- Batteries marks the rational operations irreducible; making them
-- semireducible again lets `decide` evaluate concrete scores in the kernel.
attribute [local semireducible] Rat.add Rat.mul Rat.inv Rat.sub

/-! ## String helpers (Python `str.lower`, `in`, `strip`) -/

/-- Python `str.lower()` for one ASCII character (identity elsewhere). -/
def charLower (c : Char) : Char :=
  if 65 ≤ c.toNat ∧ c.toNat ≤ 90 then Char.ofNat (c.toNat + 32) else c

/-- Python `str.lower()` on the character list of a string. -/
def lowerList (s : List Char) : List Char := s.map charLower

/-- Whether `needle` occurs at the start of `hay`. -/
def isPrefixList : List Char → List Char → Bool
  | [], _ => true
  | _ :: _, [] => false
  | a :: as, b :: bs => (a == b) && isPrefixList as bs

/-- Python `needle in hay` substring test on character lists. -/
def containsSub (needle : List Char) : List Char → Bool
  | [] => isPrefixList needle []
  | b :: bs => isPrefixList needle (b :: bs) || containsSub needle bs

/-- Python whitespace class `\s` (ASCII part). -/
def isPySpace (c : Char) : Bool :=
  c == ' ' || c == '\t' || c == '\n' || c == '\r' || c == '\x0b' || c == '\x0c'

/-- Python `str.strip()` on a character list. -/
def pyStripChars (s : List Char) : List Char :=
  ((s.dropWhile isPySpace).reverse.dropWhile isPySpace).reverse

/-- Python truthiness-based `a or b` for optional strings (`None` and `""` are falsy). -/
def pyOrStr (a : Option String) (b : String) : String :=
  match a with
  | some s => if s == "" then b else s
  | none => b

/-! ## Configuration (backend/app/core/config.py, Settings)

`hybrid_search_vector_weight` and `hybrid_search_fulltext_weight` are set
unconditionally in `Settings.__init__` (lines 54-55); `vector_search_batch_limit`
defaults to 100.  `enable_llm_reranking` is environment-dependent and is kept in
the search environment instead. -/

def hybrid_search_vector_weight : ℚ := 7/10

def hybrid_search_fulltext_weight : ℚ := 3/10

def vector_search_batch_limit : ℕ := 100

/-! ## Data model

`RawItem` is a row as returned by the datastore (the `vector_search_*` RPC or the
`knowledge_items` table query); `Candidate` is the result dict built from it by
`vector_search` / `fulltext_search` and then mutated by the `hybrid_search`
pipeline.  The keys that the pipeline adds later (`vector_score`,
`fulltext_score`, `llm_relevance_score`, `original_score`) are modelled as
fields holding their pre-assignment defaults. -/

structure RawItem where
  id : String
  question : Option String
  question_raw : Option String
  question_enriched : Option String
  answer : String
  category : Option String
  tags : Option (List String)
  date : Option String
  source_url : Option String
  similarity : ℚ
  content_type : Option String
  media_url : Option String
  timecode_start : Option ℚ
  timecode_end : Option ℚ
  course_id : Option String
  module_id : Option String
  lesson_id : Option String
  hierarchy_level : Option ℤ
deriving Repr, DecidableEq

structure Candidate where
  id : String
  question : String
  answer : String
  category : Option String
  tags : List String
  date : Option String
  source_url : Option String
  score : ℚ
  match_type : String
  content_type : Option String
  media_url : Option String
  timecode_start : Option ℚ
  timecode_end : Option ℚ
  course_id : Option String
  module_id : Option String
  lesson_id : Option String
  /-- The result dicts built by `vector_search` and `fulltext_search` carry no
  `hierarchy_level` key, so `combined[item_id].get("hierarchy_level")` yields
  `None`; a candidate holds `some n` only if some other producer added the key. -/
  hierarchy_level : Option ℤ
  vector_score : ℚ
  fulltext_score : ℚ
  llm_relevance_score : Option ℚ
  original_score : Option ℚ
deriving Repr, DecidableEq, Inhabited

/-- Result of `parse_admin_search_directive` (search.py lines 217-284). -/
structure SearchDirective where
  prioritize_courses : Bool
  course_only : Bool
  instructor_filter : Option String
deriving Repr, DecidableEq

/-! ## Regular-expression engine

`parse_admin_search_directive` matches three `re.search` patterns with
`re.IGNORECASE`.  `Re` is a small backtracking regex AST covering exactly the
constructs those patterns use; literals compare case-insensitively, mirroring
`re.IGNORECASE`, and under that flag the classes `[A-Z]` and `[a-z]` both accept
any ASCII letter. -/

inductive Re where
  | pred (p : Char → Bool)
  | lit (s : List Char)
  | seq (a b : Re)
  | alt (a b : Re)
  | opt (a : Re)
  | plus (a : Re)
  | star (a : Re)
  | eos

/-- Case-insensitive literal match; returns the rest of the input. -/
def matchLit : List Char → List Char → Option (List Char)
  | [], s => some s
  | _ :: _, [] => none
  | a :: as, b :: bs => if charLower a == charLower b then matchLit as bs else none

/-- Backtracking matcher in continuation-passing style.  Alternatives are tried
left first and quantifiers longest first, which is the Python backtracking
order.  The fuel bounds the recursion depth only; with enough fuel the result
equals the unbounded search. -/
def Re.mat : ℕ → Re → List Char → (List Char → Option (List Char)) → Option (List Char)
  | 0, _, _, _ => none
  | _ + 1, .pred p, s, k =>
      match s with
      | [] => none
      | c :: rest => if p c then k rest else none
  | _ + 1, .lit l, s, k => (matchLit l s).bind k
  | fuel + 1, .seq a b, s, k => Re.mat fuel a s (fun s1 => Re.mat fuel b s1 k)
  | fuel + 1, .alt a b, s, k => (Re.mat fuel a s k) <|> (Re.mat fuel b s k)
  | fuel + 1, .opt a, s, k => (Re.mat fuel a s k) <|> k s
  | fuel + 1, .plus a, s, k =>
      Re.mat fuel a s (fun s1 => (Re.mat fuel (.plus a) s1 k) <|> k s1)
  | fuel + 1, .star a, s, k =>
      (Re.mat fuel a s (fun s1 => Re.mat fuel (.star a) s1 k)) <|> k s
  | _ + 1, .eos, s, k => if s.isEmpty then k s else none

/-- A search pattern with exactly one capturing group: `pre (cap) post`. -/
structure Pat where
  pre : Re
  cap : Re
  post : Re

/-- Attempt a match of the pattern anchored at the current position, returning
the text consumed by the capturing group of the first match in backtracking
order. -/
def tryAt (p : Pat) (s : List Char) : Option (List Char) :=
  let fuel := 4 * s.length + 400
  Re.mat fuel p.pre s (fun s1 =>
    Re.mat fuel p.cap s1 (fun s2 =>
      Re.mat fuel p.post s2 (fun _ => some (s1.take (s1.length - s2.length)))))

/-- Python `re.search`: try each start position left to right. -/
def reSearch (p : Pat) : List Char → Option (List Char)
  | [] => tryAt p []
  | c :: rest =>
      match tryAt p (c :: rest) with
      | some g => some g
      | none => reSearch p rest

/-- Under `re.IGNORECASE` the classes `[A-Z]` and `[a-z]` both accept any ASCII
letter. -/
def isAsciiLetter (c : Char) : Bool :=
  (65 ≤ c.toNat && c.toNat ≤ 90) || (97 ≤ c.toNat && c.toNat ≤ 122)

/-- One word `[A-Z][a-z]+` (two or more letters under `re.IGNORECASE`). -/
def wordRe : Re := .seq (.pred isAsciiLetter) (.plus (.pred isAsciiLetter))

/-- Whitespace run `\s+`. -/
def spacesRe : Re := .plus (.pred isPySpace)

/-- Capturing phrase `[A-Z][a-z]+(?:\s+[A-Z][a-z]+)+` (two or more words). -/
def namePhraseRe : Re := .seq wordRe (.plus (.seq spacesRe wordRe))

/-- Capturing phrase `[A-Z][a-z]+\s+[A-Z][a-z]+` (exactly two words). -/
def twoWordRe : Re := .seq wordRe (.seq spacesRe wordRe)

/-- Optional opening bracket `\[?`. -/
def lbrackOpt : Re := .opt (.pred (fun c => c == '['))

/-- Optional closing bracket `\]?`. -/
def rbrackOpt : Re := .opt (.pred (fun c => c == ']'))

/-- The alternative `lessons?`. -/
def lessonsRe : Re := .seq (.lit "lesson".data) (.opt (.lit "s".data))

/-- The alternative `(?:transcript|lessons?|course)`. -/
def trailerRe : Re := .alt (.lit "transcript".data) (.alt lessonsRe (.lit "course".data))

/-- The alternative `(?:from|share|use)`. -/
def fromShareUse : Re :=
  .alt (.lit "from".data) (.alt (.lit "share".data) (.lit "use".data))

/-- Pattern 1 of `name_patterns`:
`(?:from|share|use)\s+(?:lessons?\s+from\s+)?(?:transcript\s+from\s+)?(?:\[?(NAME)\]?)\s+(?:transcript|lessons?|course)`
where NAME is two or more consecutive `[A-Z][a-z]+` words. -/
def namePattern1 : Pat :=
  { pre := .seq fromShareUse (.seq spacesRe (.seq
      (.opt (.seq lessonsRe (.seq spacesRe (.seq (.lit "from".data) spacesRe))))
      (.seq (.opt (.seq (.lit "transcript".data) (.seq spacesRe (.seq (.lit "from".data) spacesRe))))
        lbrackOpt)))
    cap := namePhraseRe
    post := .seq rbrackOpt (.seq spacesRe trailerRe) }

/-- Pattern 2 of `name_patterns`:
`(?:\[?([A-Z][a-z]+\s+[A-Z][a-z]+)\]?)\s+(?:transcript|lessons?|course)`. -/
def namePattern2 : Pat :=
  { pre := lbrackOpt
    cap := twoWordRe
    post := .seq rbrackOpt (.seq spacesRe trailerRe) }

/-- Pattern 3 of `name_patterns`:
`from\s+(?:\[?([A-Z][a-z]+(?:\s+[A-Z][a-z]+)+)\]?)\s*$`. -/
def namePattern3 : Pat :=
  { pre := .seq (.lit "from".data) (.seq spacesRe lbrackOpt)
    cap := namePhraseRe
    post := .seq rbrackOpt (.seq (.star (.pred isPySpace)) .eos) }

/-- The loop over `name_patterns` in `parse_admin_search_directive`: the first
pattern that matches supplies `match.group(1).strip()`. -/
def findInstructorFilter (admin_input : String) : Option String :=
  match reSearch namePattern1 admin_input.data with
  | some g => some (String.mk (pyStripChars g))
  | none =>
    match reSearch namePattern2 admin_input.data with
    | some g => some (String.mk (pyStripChars g))
    | none => (reSearch namePattern3 admin_input.data).map (fun g => String.mk (pyStripChars g))

/-! ## Directive parsing (search.py lines 217-284) -/

def course_keywords : List String :=
  ["search the course", "check the course", "look in the course",
   "course first", "prioritize course", "from the course",
   "search course", "check course", "look in course",
   "share lessons", "use lessons", "from lessons",
   "share transcript", "use transcript", "from transcript",
   "check transcript", "look in transcript"]

def course_only_keywords : List String :=
  ["only the course", "just the course", "course only",
   "only course", "just course",
   "only transcript", "just transcript", "only lessons", "just lessons"]

def default_directive : SearchDirective :=
  { prioritize_courses := false, course_only := false, instructor_filter := none }

/-- Body of `parse_admin_search_directive` for non-empty guidance: the keyword
scans over the lower-cased text, then the name-pattern loop, which on a match
sets the filter and forces `prioritize_courses = True`. -/
def parse_admin_nonempty (inp : String) : SearchDirective :=
  let admin_lower := String.mk (lowerList inp.data)
  let prioritize_courses := course_keywords.any (fun k => containsSub k.data admin_lower.data)
  let course_only := course_only_keywords.any (fun k => containsSub k.data admin_lower.data)
  match findInstructorFilter inp with
  | some f =>
      { prioritize_courses := true, course_only := course_only, instructor_filter := some f }
  | none =>
      { prioritize_courses := prioritize_courses, course_only := course_only,
        instructor_filter := none }

/-- Translation of `parse_admin_search_directive`.  A `None` or empty guidance
string is falsy in Python and returns the default directive. -/
def parse_admin_search_directive (admin_input : Option String) : SearchDirective :=
  match admin_input with
  | none => default_directive
  | some inp =>
    if inp == "" then default_directive
    else parse_admin_nonempty inp

/-! ## External environment

The datastore and the model providers are external collaborators.  `Env` fixes
one behavior for them during a call: the rows the vector RPC and the
`knowledge_items` query return (as functions of the arguments the service
passes), whether each provider call fails, the rerank response, and the
environment-variable flag `ENABLE_LLM_RERANKING`.  The provider- and
course-side filtering of rows happens inside the datastore and is therefore
part of these row functions. -/

/-- Outcome of the generative call inside `llm_rerank_results`: the provider
raised, the response text contained no JSON array (or it failed to decode), or
a score array was decoded. -/
inductive RerankOutcome where
  | providerError
  | noJsonArray (response_text : String)
  | scores (s : List ℚ)

structure Env where
  embedOk : Bool
  vectorRows : ℕ → Option String → List RawItem
  vectorFails : Bool
  fulltextRows : String → ℕ → Option String → List RawItem
  fulltextFails : Bool
  rerank : RerankOutcome
  enable_llm_reranking : Bool

/-- Python exceptions that can escape `hybrid_search`. -/
inductive PyError where
  | valueError (msg : String)
deriving Repr, DecidableEq

/-- Translation of `get_adapter` (llm_adapters.py lines 386-403): lower-case the
provider id and raise `ValueError` unless it is `openai` or `gemini`. -/
def get_adapter (provider : String) : Except PyError Unit :=
  let p := String.mk (lowerList provider.data)
  if p == "openai" then .ok ()
  else if p == "gemini" then .ok ()
  else .error (.valueError ("Unknown provider: " ++ p))

/-- The result dict built for one RPC row in `vector_search` (search.py lines
100-121).  The dict carries no `hierarchy_level` key. -/
def vecTransform (item : RawItem) : Candidate :=
  { id := item.id
    question := pyOrStr item.question_enriched (pyOrStr item.question_raw (item.question.getD ""))
    answer := item.answer
    category := item.category
    tags := item.tags.getD []
    date := item.date
    source_url := item.source_url
    score := item.similarity
    match_type := "vector"
    content_type := item.content_type
    media_url := item.media_url
    timecode_start := item.timecode_start
    timecode_end := item.timecode_end
    course_id := item.course_id
    module_id := item.module_id
    lesson_id := item.lesson_id
    hierarchy_level := none
    vector_score := 0
    fulltext_score := 0
    llm_relevance_score := none
    original_score := none }

/-- Rank-based score in `fulltext_search`: `max(0.1, 1.0 - idx * 0.1)`. -/
def ftScore (idx : ℕ) : ℚ := max (1/10) (1 - (idx : ℚ) * (1/10))

/-- The result dict built for row number `idx` in `fulltext_search` (search.py
lines 187-208).  The dict carries no `hierarchy_level` key. -/
def ftTransform (idx : ℕ) (item : RawItem) : Candidate :=
  { id := item.id
    question := pyOrStr item.question_enriched (pyOrStr item.question_raw (item.question.getD ""))
    answer := item.answer
    category := item.category
    tags := item.tags.getD []
    date := item.date
    source_url := item.source_url
    score := ftScore idx
    match_type := "fulltext"
    content_type := item.content_type
    media_url := item.media_url
    timecode_start := item.timecode_start
    timecode_end := item.timecode_end
    course_id := item.course_id
    module_id := item.module_id
    lesson_id := item.lesson_id
    hierarchy_level := none
    vector_score := 0
    fulltext_score := 0
    llm_relevance_score := none
    original_score := none }

/-- Translation of `vector_search` (search.py lines 59-129).  The RPC returns
rows presorted by similarity; any datastore error yields `[]`.  The embedding
vector, provider and course filter determine the RPC call and live in the
environment. -/
def vector_search (env : Env) (limit : ℕ) (course_id : Option String) : List Candidate :=
  let batch_limit := min (limit * 2) vector_search_batch_limit
  if env.vectorFails then []
  else ((env.vectorRows batch_limit course_id).map vecTransform).take limit

/-- Translation of `fulltext_search` (search.py lines 132-214).  The keyword
conditions are evaluated by the datastore, which returns at most `limit` rows;
rows are scored by their rank; any datastore error yields `[]`. -/
def fulltext_search (env : Env) (query : String) (limit : ℕ) (course_id : Option String) :
    List Candidate :=
  if env.fulltextFails then []
  else ((env.fulltextRows query limit course_id).enum).map (fun p => ftTransform p.1 p.2)

/-! ## Merging (search.py lines 449-482) -/

/-- The entry stored for a vector result: `combined[item_id] = result.copy()`
then `vector_score`, `fulltext_score = 0.0`, `match_type = "vector"`. -/
def mkVectorEntry (r : Candidate) : Candidate :=
  { r with vector_score := r.score, fulltext_score := 0, match_type := "vector" }

/-- One step of the vector loop.  Python dict assignment replaces the value of
an existing key but keeps its insertion position. -/
def upsertVector (acc : List Candidate) (r : Candidate) : List Candidate :=
  if acc.any (fun x => x.id == r.id) then
    acc.map (fun x => if x.id == r.id then mkVectorEntry r else x)
  else acc ++ [mkVectorEntry r]

/-- One step of the fulltext loop: an id already present is upgraded in place to
`match_type = "hybrid"` with its `fulltext_score` set, a new id is appended as a
fulltext-only entry. -/
def addFulltextEntry (acc : List Candidate) (r : Candidate) : List Candidate :=
  if acc.any (fun x => x.id == r.id) then
    acc.map (fun x =>
      if x.id == r.id then { x with fulltext_score := r.score, match_type := "hybrid" } else x)
  else acc ++ [{ r with vector_score := 0, fulltext_score := r.score, match_type := "fulltext" }]

/-- The `combined` dict after both loops, in insertion order. -/
def mergeResults (vector_results fulltext_results : List Candidate) : List Candidate :=
  fulltext_results.foldl addFulltextEntry (vector_results.foldl upsertVector [])

/-- The weighted-score loop (search.py lines 474-482). -/
def applyWeights (combined : List Candidate) : List Candidate :=
  combined.map (fun c =>
    { c with score := hybrid_search_vector_weight * c.vector_score +
        hybrid_search_fulltext_weight * c.fulltext_score })

/-! ## Boost stages (search.py lines 484-531) -/

/-- Default course-content prioritization (lines 484-494): `×3.0` when the
stored `hierarchy_level` equals 4, else `×1.5` when `course_id` is not null. -/
def staticCourseBoost (combined : List Candidate) : List Candidate :=
  combined.map (fun c =>
    if c.hierarchy_level == some 4 then { c with score := c.score * 3 }
    else if c.course_id.isSome then { c with score := c.score * (3/2) } else c)

/-- Admin-guided prioritization (lines 496-510): `course_only` keeps only
course items, otherwise `prioritize_courses` boosts course items by 50%. -/
def applyAdminPrioritization (d : SearchDirective) (combined : List Candidate) : List Candidate :=
  if d.course_only then combined.filter (fun c => c.course_id.isSome)
  else if d.prioritize_courses then
    combined.map (fun c =>
      if c.course_id.isSome then { c with score := c.score * (3/2) } else c)
  else combined

/-- Instructor filter (lines 512-531): candidates whose `question` contains the
filter as a case-insensitive substring are boosted `×10.0` and become the whole
working set; if none match, the set is left untouched. -/
def applyInstructorFilter (d : SearchDirective) (final_results : List Candidate) : List Candidate :=
  match d.instructor_filter with
  | none => final_results
  | some f =>
    let matching := final_results.filter
      (fun c => containsSub (lowerList f.data) (lowerList c.question.data))
    if matching.isEmpty then final_results
    else matching.map (fun c => { c with score := c.score * 10 })

/-! ## Sorting

Python `list.sort(key=..., reverse=True)` is a stable descending sort; a stable
sort is determined by its ordering, so a stable insertion sort is used. -/

def insertByKeyDesc (key : Candidate → ℚ) (c : Candidate) : List Candidate → List Candidate
  | [] => [c]
  | x :: xs => if x.score > c.score then x :: insertByKeyDesc key c xs else c :: x :: xs

def sortByKeyDesc (key : Candidate → ℚ) : List Candidate → List Candidate
  | [] => []
  | x :: xs => insertByKeyDesc key x (sortByKeyDesc key xs)

/-! ## LLM reranking (search.py lines 287-398) -/

/-- Translation of `llm_rerank_results`.  The function returns `[]` for an empty
input; on a provider error, a response without a JSON array, or a score array
whose length differs from the batch, the `except` / early-return paths yield
`results[:limit]` with every candidate untouched.  On success the first
`batch_size = 20` candidates get their score replaced by the LLM score, are
stably sorted by it descending, and are followed by untouched remaining
candidates up to `limit`. -/
def llm_rerank_results (outcome : RerankOutcome) (results : List Candidate) (limit : ℕ) :
    List Candidate :=
  if results.isEmpty then []
  else
    let batch_size := 20
    let results_to_rerank := results.take batch_size
    match outcome with
    | .providerError => results.take limit
    | .noJsonArray _ => results.take limit
    | .scores s =>
      if s.length ≠ results_to_rerank.length then results.take limit
      else
        let scored := (results_to_rerank.zip s).map (fun p =>
          { p.1 with
            llm_relevance_score := some p.2
            original_score := some p.1.score
            score := p.2 })
        let reranked := sortByKeyDesc (fun c => (c.llm_relevance_score).getD 0) scored
        let remaining := results.drop batch_size
        reranked.take limit ++ remaining.take (limit - reranked.length)

/-! ## Category partition (search.py lines 548-563) -/

/-- Predicate of the `course_results` comprehension:
`item.get("course_id") is not None or item.get("content_type") in ["video", "manual"]`. -/
def isCourseTab (c : Candidate) : Bool :=
  c.course_id.isSome || c.content_type == some "video" || c.content_type == some "manual"

/-- Predicate of the `facebook_results` comprehension:
`item.get("content_type") == "facebook" or (item.get("course_id") is None and
item.get("content_type") not in ["video", "manual"])`. -/
def isFacebookTab (c : Candidate) : Bool :=
  c.content_type == some "facebook" ||
    (c.course_id.isNone && !(c.content_type == some "video") && !(c.content_type == some "manual"))

/-- The final return value: `course_results[:limit] + facebook_results[:limit]`. -/
def tab_partition (final_results : List Candidate) (limit : ℕ) : List Candidate :=
  (final_results.filter isCourseTab).take limit ++ (final_results.filter isFacebookTab).take limit

/-! ## Orchestrator (search.py lines 401-563) -/

/-- Translation of `hybrid_search`.  `get_adapter` is called outside any
`try`, so an unknown provider raises; an embedding failure falls back to the
raw fulltext result; otherwise retrieval, merge, weighting, boosts, sort,
optional rerank and the tab partition run in source order. -/
def hybrid_search (env : Env) (query provider : String) (limit : ℕ)
    (course_id : Option String) (admin_input : Option String) :
    Except PyError (List Candidate) :=
  let search_directive := parse_admin_search_directive admin_input
  match get_adapter provider with
  | .error e => .error e
  | .ok _ =>
    if !env.embedOk then .ok (fulltext_search env query limit course_id)
    else
      let batch_multiplier := if search_directive.instructor_filter.isSome then 10 else 3
      let vector_results := vector_search env (limit * batch_multiplier) course_id
      let fulltext_results :=
        match search_directive.instructor_filter with
        | some instructor_name =>
            fulltext_search env instructor_name (limit * batch_multiplier) course_id ++
              fulltext_search env query (limit * batch_multiplier) course_id
        | none => fulltext_search env query (limit * batch_multiplier) course_id
      let combined := staticCourseBoost (applyWeights (mergeResults vector_results fulltext_results))
      let final_results := applyInstructorFilter search_directive
        (applyAdminPrioritization search_directive combined)
      let final_results := sortByKeyDesc (fun c => c.score) final_results
      let final_results :=
        if env.enable_llm_reranking && !final_results.isEmpty then
          llm_rerank_results env.rerank final_results (limit * 3)
        else final_results
      .ok (tab_partition final_results limit)

/-- Modelled from the spec: section 4.9 describes the embedding-failure fallback
as "the lexical-only partitioned/boosted result", i.e. the lexical retrieval
carried through the merge (with an empty vector side), boost, sort and
partition stages.  This definition follows those words; it exists only to be
compared with what `hybrid_search` actually returns on that path. -/
def lexicalOnlyBoostedPartitioned (env : Env) (query : String) (limit : ℕ)
    (course_id : Option String) (admin_input : Option String) : List Candidate :=
  let d := parse_admin_search_directive admin_input
  let fs := fulltext_search env query limit course_id
  let combined := staticCourseBoost (applyWeights (mergeResults [] fs))
  let final := applyInstructorFilter d (applyAdminPrioritization d combined)
  tab_partition (sortByKeyDesc (fun c => c.score) final) limit

/-! ## Concrete fixtures

Rows, environments and candidate lists used to instantiate the theorems below.
`mkRaw` abbreviates a datastore row whose unused columns are empty. -/

def mkRaw (i : String) (sim : ℚ) (cid : Option String) (ct : Option String)
    (q : String) (hl : Option ℤ) : RawItem :=
  { id := i, question := some q, question_raw := none, question_enriched := none,
    answer := "a", category := none, tags := none, date := none, source_url := none,
    similarity := sim, content_type := ct, media_url := none, timecode_start := none,
    timecode_end := none, course_id := cid, module_id := none, lesson_id := none,
    hierarchy_level := hl }

/-- Environment in which no items match, every provider works and reranking is
left enabled. -/
def envEmpty : Env :=
  { embedOk := true, vectorRows := fun _ _ => [], vectorFails := false,
    fulltextRows := fun _ _ _ => [], fulltextFails := false,
    rerank := .providerError, enable_llm_reranking := true }

/-- Environment for the end-to-end merge example: three vector hits with
similarities 0.9, 0.8, 0.5 and two lexical hits (ranked scores 1.0, 0.9). -/
def envC1 : Env :=
  { envEmpty with
    vectorRows := fun _ _ =>
      [mkRaw "X" (9/10) none none "x" none, mkRaw "Y" (8/10) none none "y" none,
       mkRaw "Z" (5/10) none none "z" none]
    fulltextRows := fun q _ _ =>
      if q == "pricing strategy" then
        [mkRaw "X" 0 none none "x" none, mkRaw "W" 0 none none "w" none]
      else [] }

def exampleVectorHits : List Candidate := vector_search envC1 15 none

def exampleLexicalHits : List Candidate := fulltext_search envC1 "pricing strategy" 15 none

def exampleMerged : List Candidate := applyWeights (mergeResults exampleVectorHits exampleLexicalHits)

/-- Environment holding one vector hit that is a leaf transcript segment
(`hierarchy_level = 4`) of a course, with similarity 0.5. -/
def rawSegment : RawItem := mkRaw "S" (1/2) (some "c9") (some "video") "segment" (some 4)

def envC2 : Env :=
  { envEmpty with
    enable_llm_reranking := false
    vectorRows := fun _ _ => [rawSegment] }

/-- Environment whose embedding provider is down and whose lexical search finds
an unstructured item ranked above a course item. -/
def envC3 : Env :=
  { envEmpty with
    embedOk := false
    fulltextRows := fun q l _ =>
      if q == "pricing" && l == 5 then
        [mkRaw "A" 0 none (some "facebook") "fb post" none,
         mkRaw "B" 0 (some "c1") none "lesson b" none]
      else [] }

/-- Five distinct candidates for the rerank-fallback example. -/
def exampleFiveCandidates : List Candidate :=
  (List.range 5).map (fun i => vecTransform (mkRaw (toString i) ((i : ℚ) + 1) none none "q" none))

/-- Environment for the named-entity scenario: one candidate titled
"Jane Doe – Pricing Basics" whose combined score before boosting is 0.4
(similarity 4/7, so 0.7 · 4/7 = 0.4), plus nine unrelated candidates. -/
def envC5 : Env :=
  { envEmpty with
    enable_llm_reranking := false
    vectorRows := fun _ _ =>
      mkRaw "J" (4/7) none none "Jane Doe – Pricing Basics" none ::
        (List.range 9).map (fun i =>
          mkRaw (toString i) (1/2) none none ("other " ++ toString i) none) }

/-- Environment in which the vector path returns nothing and both lexical
queries of the instructor-filter branch return the same item. -/
def envC6 : Env :=
  { envEmpty with
    enable_llm_reranking := false
    fulltextRows := fun q _ _ =>
      if q == "Jane Doe" || q == "pricing" then
        [mkRaw "A" 0 (some "c1") none "Jane Doe Lesson 1" none]
      else [] }

/-- A candidate that belongs to a course and has content type `facebook`. -/
def cOverlapB : Candidate := vecTransform (mkRaw "B" (1/2) (some "c1") (some "facebook") "b" none)

/-- A candidate in neither course nor facebook form. -/
def cPlain : Candidate := vecTransform (mkRaw "P" (1/3) none none "p" none)

/-! ## Claims -/

/-- C1: after the merge step of `hybrid_search` every candidate's combined score
equals 0.7 times its vector score plus 0.3 times its fulltext (lexical) score,
the scores standing at 0 for an absent retrieval path; on the example inputs
with vector hits (X, 0.9), (Y, 0.8), (Z, 0.5) and lexical hits (X, 1.0),
(W, 0.9) the merged scores are X = 0.93, Y = 0.56, Z = 0.35, W = 0.27 and the
pre-boost ranking is X, Y, Z, W. -/
theorem C1_weighted_sum_after_merge :
    (∀ (vs fs : List Candidate), ∀ c ∈ applyWeights (mergeResults vs fs),
      c.score = hybrid_search_vector_weight * c.vector_score +
        hybrid_search_fulltext_weight * c.fulltext_score) ∧
    (exampleMerged.map (fun c => (c.id, c.score)) =
      [("X", 93/100), ("Y", 56/100), ("Z", 35/100), ("W", 27/100)]) ∧
    ((sortByKeyDesc (fun c => c.score) exampleMerged).map (fun c => c.id) =
      ["X", "Y", "Z", "W"]) := by
  refine ⟨?_, by decide, by decide⟩
  intro vs fs c hc
  rcases List.mem_map.1 hc with ⟨d, _, rfl⟩
  rfl

/-- Witness for C1: the first merged candidate of the concrete example
satisfies the weighted-sum law. -/
theorem C1_weighted_sum_after_merge_witness :
    exampleMerged.headI.score =
      hybrid_search_vector_weight * exampleMerged.headI.vector_score +
        hybrid_search_fulltext_weight * exampleMerged.headI.fulltext_score :=
  C1_weighted_sum_after_merge.1 exampleVectorHits exampleLexicalHits
    exampleMerged.headI (by decide)

/-- C2 (code bug): the result dicts built by the vector and lexical retrieval
paths never carry a `hierarchy_level` key, so the `×3.0` leaf boost of
`hybrid_search` can never fire for candidates coming from retrieval; a leaf
transcript segment (`hierarchy_level = 4`, similarity 0.5, course id set) ends
the pipeline with score 0.7 · 0.5 · 1.5 = 21/40 — the `×1.5` course boost —
instead of the `×3.0` leaf boost the claim (and the comment in the source)
describes. -/
theorem C2_leaf_boost_unreachable :
    (∀ item : RawItem, (vecTransform item).hierarchy_level = none) ∧
    (∀ (idx : ℕ) (item : RawItem), (ftTransform idx item).hierarchy_level = none) ∧
    rawSegment.hierarchy_level = some 4 ∧
    rawSegment.course_id.isSome = true ∧
    ((hybrid_search envC2 "q" "gemini" 5 none none).map
        (List.map (fun c => (c.id, c.score, c.hierarchy_level))) =
      Except.ok [("S", 21/40, none)]) ∧
    (21 : ℚ)/40 = hybrid_search_vector_weight * rawSegment.similarity * (3/2) ∧
    (21 : ℚ)/40 ≠ hybrid_search_vector_weight * rawSegment.similarity * 3 :=
  ⟨fun _ => rfl, fun _ _ => rfl, rfl, rfl, rfl, by decide, by decide⟩

/-- C3 counterexample: with the embedding provider down, `hybrid_search`
returns the raw fulltext output (facebook item A first, scores 1.0 and 0.9,
both `fulltext`), which is not the boosted/partitioned lexical-only result
(which would rank course item B first with boosted score 81/200). -/
theorem C3_fallback_counterexample :
    ((hybrid_search envC3 "pricing" "gemini" 5 none none).map
        (List.map (fun c => (c.id, c.score, c.match_type))) =
      Except.ok [("A", 1, "fulltext"), ("B", 9/10, "fulltext")]) ∧
    ((lexicalOnlyBoostedPartitioned envC3 "pricing" 5 none none).map
        (fun c => (c.id, c.score, c.match_type)) =
      [("B", 81/200, "fulltext"), ("A", 3/10, "fulltext")]) ∧
    hybrid_search envC3 "pricing" "gemini" 5 none none ≠
      Except.ok (lexicalOnlyBoostedPartitioned envC3 "pricing" 5 none none) := by
  refine ⟨rfl, rfl, fun h => ?_⟩
  have h2 := congrArg (fun e => e.toOption.map (List.map (fun c : Candidate => c.id))) h
  exact absurd h2 (by decide)

/-- C3 amended: when the query embedding fails, `hybrid_search` returns the raw
`fulltext_search` output for the original query and limit, skipping the merge,
boost, rerank and partition stages. -/
theorem C3_fallback_is_raw_fulltext :
    ∀ (env : Env) (query provider : String) (limit : ℕ)
      (course_id admin_input : Option String),
      env.embedOk = false → get_adapter provider = .ok () →
      hybrid_search env query provider limit course_id admin_input =
        .ok (fulltext_search env query limit course_id) := by
  intro env q p l cid a hE hA
  unfold hybrid_search
  rw [hA, hE]
  rfl

/-- Witness for C3 amended at the concrete environment. -/
theorem C3_fallback_is_raw_fulltext_witness :
    hybrid_search envC3 "pricing" "gemini" 5 none none =
      .ok (fulltext_search envC3 "pricing" 5 none) :=
  C3_fallback_is_raw_fulltext envC3 "pricing" "gemini" 5 none none rfl rfl

/-- C4: on any rerank failure — provider error, no JSON array in the response,
or a score array whose length differs from the batch — `llm_rerank_results`
returns the first `limit` candidates in their pre-rerank order with scores
unchanged, and never raises; in particular a 3-element score array for a
5-candidate batch leaves all 5 candidates unchanged in pre-rerank order. -/
theorem C4_rerank_failure_keeps_prerank_order :
    (∀ (results : List Candidate) (limit : ℕ),
      llm_rerank_results .providerError results limit = results.take limit) ∧
    (∀ (t : String) (results : List Candidate) (limit : ℕ),
      llm_rerank_results (.noJsonArray t) results limit = results.take limit) ∧
    (∀ (s : List ℚ) (results : List Candidate) (limit : ℕ),
      s.length ≠ (results.take 20).length →
      llm_rerank_results (.scores s) results limit = results.take limit) ∧
    llm_rerank_results (.scores [17/2, 2, 9]) exampleFiveCandidates 10 =
      exampleFiveCandidates := by
  refine ⟨?_, ?_, ?_, by decide⟩
  · intro results limit
    cases results with
    | nil => rw [List.take_nil]; rfl
    | cons a as => rfl
  · intro t results limit
    cases results with
    | nil => rw [List.take_nil]; rfl
    | cons a as => rfl
  · intro s results limit h
    cases results with
    | nil => rw [List.take_nil]; rfl
    | cons a as =>
      show (if s.length ≠ ((a :: as).take 20).length then (a :: as).take limit else _) = _
      rw [if_pos h]

/-- Witness for C4: the length-mismatch branch at the concrete 5-candidate,
3-score instance. -/
theorem C4_rerank_failure_keeps_prerank_order_witness :
    llm_rerank_results (.scores [17/2, 2, 9]) exampleFiveCandidates 10 =
      exampleFiveCandidates.take 10 :=
  C4_rerank_failure_keeps_prerank_order.2.2.1 [17/2, 2, 9] exampleFiveCandidates 10 (by decide)

/-- C5: with a named-entity filter set, the booster computes the candidates
whose title contains the phrase case-insensitively; a non-empty match set is
boosted ×10 and becomes the whole working set, an empty one leaves the set
untouched.  Concretely, the guidance "only share lessons from Jane Doe
transcript" parses to a directive with `prioritize_courses` and filter
"Jane Doe"; the candidate titled "Jane Doe – Pricing Basics" enters boosting
with combined score 0.4 and leaves the call ranked first with score 4.0. -/
theorem C5_named_entity_boost :
    (∀ (d : SearchDirective) (f : String) (final : List Candidate),
      d.instructor_filter = some f →
      (((final.filter (fun c => containsSub (lowerList f.data) (lowerList c.question.data))).isEmpty = true →
          applyInstructorFilter d final = final) ∧
        ((final.filter (fun c => containsSub (lowerList f.data) (lowerList c.question.data))).isEmpty = false →
          applyInstructorFilter d final =
            (final.filter (fun c => containsSub (lowerList f.data) (lowerList c.question.data))).map
              (fun c => { c with score := c.score * 10 })))) ∧
    (parse_admin_search_directive (some "only share lessons from Jane Doe transcript") =
      { prioritize_courses := true, course_only := false, instructor_filter := some "Jane Doe" }) ∧
    ((applyWeights (mergeResults (vector_search envC5 100 none)
        (fulltext_search envC5 "Jane Doe" 100 none ++
          fulltext_search envC5 "pricing strategy" 100 none))).head?.map
        (fun c => (c.id, c.score)) = some ("J", 2/5)) ∧
    ((hybrid_search envC5 "pricing strategy" "gemini" 10 none
        (some "only share lessons from Jane Doe transcript")).map
        (List.map (fun c => (c.id, c.score))) = Except.ok [("J", 4)]) := by
  refine ⟨?_, by decide, rfl, rfl⟩
  intro d f final hdf
  rcases d with ⟨p, co, fi⟩
  cases hdf
  constructor
  · intro hEmpty
    show (if (final.filter (fun c => containsSub (lowerList f.data) (lowerList c.question.data))).isEmpty = true
        then final
        else (final.filter (fun c => containsSub (lowerList f.data) (lowerList c.question.data))).map
          (fun c => { c with score := c.score * 10 })) = final
    rw [if_pos hEmpty]
  · intro hNE
    show (if (final.filter (fun c => containsSub (lowerList f.data) (lowerList c.question.data))).isEmpty = true
        then final
        else (final.filter (fun c => containsSub (lowerList f.data) (lowerList c.question.data))).map
          (fun c => { c with score := c.score * 10 })) = _
    rw [if_neg (by simp [hNE])]

/-- The Jane Doe candidate of the named-entity scenario. -/
def cJane : Candidate := vecTransform (mkRaw "J" (4/7) none none "Jane Doe – Pricing Basics" none)

/-- Witness for C5: the filter stage at the concrete Jane-Doe scenario, with a
non-empty match set. -/
theorem C5_named_entity_boost_witness :
    applyInstructorFilter
        { prioritize_courses := true, course_only := false, instructor_filter := some "Jane Doe" }
        [cJane, cPlain] =
      ([cJane, cPlain].filter
          (fun c => containsSub (lowerList "Jane Doe".data) (lowerList c.question.data))).map
        (fun c => { c with score := c.score * 10 }) := by
  have h := ((C5_named_entity_boost.1
    { prioritize_courses := true, course_only := false, instructor_filter := some "Jane Doe" }
    "Jane Doe" [cJane, cPlain] rfl).2)
  exact h (by decide)

/-- C7 counterexample: the guidance "jane doe transcript" contains none of the
trigger words from/share/use and no capitalized words at all, yet the parser
extracts the named-entity filter "jane doe" (the patterns run under
`re.IGNORECASE`, and pattern 2 needs no trigger word), instead of returning the
default directive as the claim requires. -/
theorem C7_lowercase_extraction_counterexample :
    parse_admin_search_directive (some "jane doe transcript") =
      { prioritize_courses := true, course_only := false, instructor_filter := some "jane doe" } ∧
    containsSub "from".data (lowerList "jane doe transcript".data) = false ∧
    containsSub "share".data (lowerList "jane doe transcript".data) = false ∧
    containsSub "use".data (lowerList "jane doe transcript".data) = false := by
  refine ⟨by decide, by decide, by decide, by decide⟩

/-- C7 amended: the name patterns run case-insensitively, so the extracted
phrase need not be capitalized and (given a trailing transcript/lessons/course
keyword) need not follow from/share/use; whenever a filter is extracted,
`prioritize_courses` is forced true; and absent, empty or unmatched guidance
yields the default all-false directive without error. -/
theorem C7_directive_parsing_amended :
    (∀ (g : Option String) (f : String),
      (parse_admin_search_directive g).instructor_filter = some f →
      (parse_admin_search_directive g).prioritize_courses = true) ∧
    parse_admin_search_directive none = default_directive ∧
    parse_admin_search_directive (some "") = default_directive ∧
    (parse_admin_search_directive (some "share lessons from Jane Doe transcript") =
      { prioritize_courses := true, course_only := false, instructor_filter := some "Jane Doe" }) ∧
    (parse_admin_search_directive (some "jane doe transcript") =
      { prioritize_courses := true, course_only := false, instructor_filter := some "jane doe" }) ∧
    parse_admin_search_directive (some "hello world") = default_directive := by
  refine ⟨?_, rfl, rfl, by decide, by decide, by decide⟩
  intro g f h
  cases g with
  | none => simp [parse_admin_search_directive, default_directive] at h
  | some s =>
    have hred : parse_admin_search_directive (some s) =
        if (s == "") = true then default_directive else parse_admin_nonempty s := rfl
    rw [hred] at h ⊢
    by_cases hs : (s == "") = true
    · rw [if_pos hs] at h
      simp [default_directive] at h
    · rw [if_neg hs] at h ⊢
      unfold parse_admin_nonempty at h ⊢
      cases hf : findInstructorFilter s with
      | some f2 => rfl
      | none => rw [hf] at h; simp at h

/-- Witness for C7 amended: a concrete extraction forcing prioritization. -/
theorem C7_directive_parsing_amended_witness :
    (parse_admin_search_directive (some "use Sahil Segal course")).prioritize_courses = true :=
  C7_directive_parsing_amended.1 (some "use Sahil Segal course") "Sahil Segal" (by decide)

/-- Both tab predicates together cover every candidate. -/
theorem tab_predicates_exhaustive :
    ∀ c : Candidate, isCourseTab c = true ∨ isFacebookTab c = true := by
  intro c
  unfold isCourseTab isFacebookTab
  cases hcid : c.course_id with
  | some v => left; simp
  | none =>
    cases hv : c.content_type == some "video" with
    | true => left; simp [hv]
    | false =>
      cases hm : c.content_type == some "manual" with
      | true => left; simp [hm]
      | false => right; simp [hv, hm]

/-- C8: the final step splits the ranked candidates by the structured-content
predicate (course id present or video/manual content type) and the
facebook/unstructured predicate, truncates each category to `limit`
independently, and returns structured first; the output has at most `2·limit`
items and each category keeps its own top slice; every `hybrid_search` result
on the non-fallback path has this shape. -/
theorem C8_partition_categories :
    (∀ c : Candidate, isCourseTab c = true ∨ isFacebookTab c = true) ∧
    (∀ (ranked : List Candidate) (limit : ℕ),
      tab_partition ranked limit =
        (ranked.filter isCourseTab).take limit ++ (ranked.filter isFacebookTab).take limit ∧
      (tab_partition ranked limit).length ≤ 2 * limit ∧
      (∀ c ∈ (ranked.filter isCourseTab).take limit, c ∈ tab_partition ranked limit) ∧
      (∀ c ∈ (ranked.filter isFacebookTab).take limit, c ∈ tab_partition ranked limit)) ∧
    (∀ (env : Env) (query provider : String) (limit : ℕ) (cid admin : Option String),
      env.embedOk = true → get_adapter provider = .ok () →
      ∃ ranked, hybrid_search env query provider limit cid admin =
        .ok (tab_partition ranked limit)) := by
  refine ⟨tab_predicates_exhaustive, ?_, ?_⟩
  · intro ranked limit
    refine ⟨rfl, ?_, ?_, ?_⟩
    · unfold tab_partition
      have h1 := List.length_take_le limit (ranked.filter isCourseTab)
      have h2 := List.length_take_le limit (ranked.filter isFacebookTab)
      rw [List.length_append]
      omega
    · intro c hc
      exact List.mem_append_left _ hc
    · intro c hc
      exact List.mem_append_right _ hc
  · intro env q p l cid a hE hA
    unfold hybrid_search
    rw [hA, hE]
    exact ⟨_, rfl⟩

/-- Witness for C8: the partition shape of a concrete `hybrid_search` call. -/
theorem C8_partition_categories_witness :
    ∃ ranked, hybrid_search envC1 "pricing strategy" "gemini" 5 none none =
      .ok (tab_partition ranked 5) :=
  C8_partition_categories.2.2 envC1 "pricing strategy" "gemini" 5 none none rfl rfl

/-- C9 counterexample: an unknown provider id makes `hybrid_search` raise
`ValueError` from the adapter factory (the `get_adapter` call sits outside the
`try` block), so the claim does not hold for every input. -/
theorem C9_unknown_provider_raises :
    hybrid_search envEmpty "" "azure" 5 none none =
      .error (.valueError "Unknown provider: azure") := rfl

/-- C9 amended: for every input whose provider id lower-cases to "openai" or
"gemini", `hybrid_search` returns a list and never raises — all sub-step
failures are absorbed — and with no matching items the result is the empty
list. -/
theorem C9_returns_for_known_provider :
    (∀ (env : Env) (query provider : String) (limit : ℕ) (cid admin : Option String),
      String.mk (lowerList provider.data) = "openai" ∨
        String.mk (lowerList provider.data) = "gemini" →
      (hybrid_search env query provider limit cid admin).isOk = true) ∧
    hybrid_search envEmpty "" "gemini" 5 none none = .ok [] := by
  refine ⟨?_, rfl⟩
  intro env q p l cid a h
  have hA : get_adapter p = .ok () := by
    unfold get_adapter
    rcases h with h | h <;> rw [h] <;> rfl
  unfold hybrid_search
  rw [hA]
  cases hE : env.embedOk <;> rfl

/-- Witness for C9 amended: a mixed-case known provider on the empty store. -/
theorem C9_returns_for_known_provider_witness :
    (hybrid_search envEmpty "q" "GEMINI" 3 none none).isOk = true :=
  C9_returns_for_known_provider.1 envEmpty "q" "GEMINI" 3 none none (Or.inr (by decide))

/-- C10: the two output categories are exhaustive but not disjoint — every
candidate satisfies at least one predicate, a candidate with a course id and
content type "facebook" satisfies both, and when such a candidate is in the
top `limit` of both categories the returned list carries its id twice. -/
theorem C10_tab_categories_overlap :
    (∀ c : Candidate, isCourseTab c = true ∨ isFacebookTab c = true) ∧
    (∀ c : Candidate, c.course_id.isSome = true → c.content_type = some "facebook" →
      isCourseTab c = true ∧ isFacebookTab c = true) ∧
    (tab_partition [cOverlapB, cPlain] 1).map (fun c => c.id) = ["B", "B"] := by
  refine ⟨tab_predicates_exhaustive, ?_, by decide⟩
  intro c h1 h2
  constructor
  · simp [isCourseTab, h1]
  · simp [isFacebookTab, h2]

/-- Witness for C10: the concrete course+facebook candidate is in both
categories. -/
theorem C10_tab_categories_overlap_witness :
    isCourseTab cOverlapB = true ∧ isFacebookTab cOverlapB = true :=
  C10_tab_categories_overlap.2.1 cOverlapB (by decide) (by decide)

/-- C6 counterexample: with an instructor filter set, the lexical side of the
merge is the concatenation of two fulltext searches; an item returned by both
of them and by no vector search still ends the call with `match_type =
"hybrid"`, contradicting the claim that `hybrid` marks exactly the ids
returned by both retrieval paths. -/
theorem C6_lexical_duplicate_marked_hybrid :
    ((hybrid_search envC6 "pricing" "gemini" 5 none
        (some "share lessons from Jane Doe transcript")).map
        (List.map (fun c => (c.id, c.match_type))) = Except.ok [("A", "hybrid")]) ∧
    (∀ (n : ℕ) (cid : Option String), envC6.vectorRows n cid = []) ∧
    (parse_admin_search_directive (some "share lessons from Jane Doe transcript")).instructor_filter =
      some "Jane Doe" :=
  ⟨rfl, fun _ _ => rfl, by decide⟩

/-! ## Merge provenance lemmas (for C6) -/

/-- The ids of a candidate list, in order. -/
def candIds (l : List Candidate) : List String := l.map (fun c => c.id)

/-- Dict lookup by id: the first candidate carrying the id. -/
def findById (l : List Candidate) (i : String) : Option Candidate :=
  l.find? (fun c => c.id == i)

theorem mem_candIds {i : String} {l : List Candidate} :
    i ∈ candIds l ↔ ∃ c ∈ l, c.id = i := by
  simp [candIds]

theorem any_id_true_iff (l : List Candidate) (j : String) :
    (l.any (fun x => x.id == j)) = true ↔ j ∈ candIds l := by
  rw [List.any_eq_true]
  constructor
  · rintro ⟨x, hx, hp⟩
    exact mem_candIds.2 ⟨x, hx, beq_iff_eq.1 hp⟩
  · intro h
    rcases mem_candIds.1 h with ⟨c, hc, hci⟩
    exact ⟨c, hc, beq_iff_eq.2 hci⟩

theorem findById_id {l : List Candidate} {i : String} {c : Candidate}
    (h : findById l i = some c) : c.id = i := by
  have hp := List.find?_some (show List.find? (fun c => c.id == i) l = some c from h)
  exact beq_iff_eq.1 hp

theorem mem_of_findById {l : List Candidate} {i : String} {c : Candidate}
    (h : findById l i = some c) : c ∈ l :=
  List.mem_of_find?_eq_some (show List.find? (fun c => c.id == i) l = some c from h)

theorem findById_eq_none_of_not_mem {l : List Candidate} {i : String}
    (h : i ∉ candIds l) : findById l i = none := by
  apply List.find?_eq_none.2
  intro c hc hp
  exact h (mem_candIds.2 ⟨c, hc, beq_iff_eq.1 hp⟩)

theorem findById_isSome_of_mem {l : List Candidate} {i : String}
    (h : i ∈ candIds l) : ∃ c, findById l i = some c ∧ c.id = i := by
  induction l with
  | nil => simp [candIds] at h
  | cons a t ih =>
    by_cases ha : (a.id == i) = true
    · exact ⟨a, List.find?_cons_of_pos _ ha, beq_iff_eq.1 ha⟩
    · have hit : i ∈ candIds t := by
        simp only [candIds, List.map_cons, List.mem_cons] at h
        rcases h with h | h
        · exact absurd (beq_iff_eq.2 h.symm) ha
        · simpa [candIds] using h
      rcases ih hit with ⟨c, hc, hci⟩
      have step : List.find? (fun c => c.id == i) (a :: t) = List.find? (fun c => c.id == i) t :=
        List.find?_cons_of_neg _ ha
      exact ⟨c, step.trans hc, hci⟩

theorem findById_of_mem_nodup {l : List Candidate} {c : Candidate}
    (hnd : (candIds l).Nodup) (hc : c ∈ l) : findById l c.id = some c := by
  induction l with
  | nil => cases hc
  | cons a t ih =>
    simp only [candIds, List.map_cons, List.nodup_cons] at hnd
    rcases List.mem_cons.1 hc with rfl | hct
    · exact List.find?_cons_of_pos _ (beq_self_eq_true _)
    · have hne : ¬(a.id == c.id) = true := by
        rw [beq_iff_eq]
        intro he
        exact hnd.1 (he ▸ mem_candIds.2 ⟨c, hct, rfl⟩)
      have step : List.find? (fun x => x.id == c.id) (a :: t) =
          List.find? (fun x => x.id == c.id) t := List.find?_cons_of_neg _ hne
      exact step.trans (ih (by simpa [candIds] using hnd.2) hct)

theorem findById_map_of_preserved (f : Candidate → Candidate) (hf : ∀ x, (f x).id = x.id)
    (l : List Candidate) (i : String) :
    findById (l.map f) i = (findById l i).map f := by
  induction l with
  | nil => rfl
  | cons a t ih =>
    show List.find? (fun c => c.id == i) (f a :: t.map f) =
      (List.find? (fun c => c.id == i) (a :: t)).map f
    by_cases ha : (a.id == i) = true
    · rw [List.find?_cons_of_pos (t.map f) (show ((f a).id == i) = true by rw [hf a]; exact ha),
        List.find?_cons_of_pos t ha]
      rfl
    · rw [List.find?_cons_of_neg (t.map f) (show ¬((f a).id == i) = true by rw [hf a]; exact ha),
        List.find?_cons_of_neg t ha]
      exact ih

theorem candIds_map_of_preserved (f : Candidate → Candidate) (hf : ∀ x, (f x).id = x.id)
    (l : List Candidate) : candIds (l.map f) = candIds l := by
  induction l with
  | nil => rfl
  | cons a t ih => simp only [candIds, List.map_cons] at ih ⊢; rw [hf a, ih]

theorem candIds_append (l m : List Candidate) : candIds (l ++ m) = candIds l ++ candIds m :=
  List.map_append _ _ _

theorem vecUpd_id (r x : Candidate) :
    (if x.id == r.id then mkVectorEntry r else x).id = x.id := by
  by_cases h : (x.id == r.id) = true
  · rw [if_pos h]
    exact (beq_iff_eq.1 h).symm
  · rw [if_neg h]

theorem ftUpd_id (r x : Candidate) :
    (if x.id == r.id then { x with fulltext_score := r.score, match_type := "hybrid" } else x).id =
      x.id := by
  by_cases h : (x.id == r.id) = true
  · rw [if_pos h]
  · rw [if_neg h]

theorem mem_upsertVector_ids (acc : List Candidate) (r : Candidate) (i : String) :
    i ∈ candIds (upsertVector acc r) ↔ i ∈ candIds acc ∨ i = r.id := by
  unfold upsertVector
  by_cases h : (acc.any (fun x => x.id == r.id)) = true
  · rw [if_pos h, candIds_map_of_preserved _ (vecUpd_id r)]
    have hr := (any_id_true_iff acc r.id).1 h
    constructor
    · exact Or.inl
    · rintro (hi | rfl)
      · exact hi
      · exact hr
  · rw [if_neg h, candIds_append]
    have he : candIds [mkVectorEntry r] = [r.id] := rfl
    rw [he]
    simp

theorem mem_upsertVector_elem (acc : List Candidate) (r c : Candidate)
    (h : c ∈ upsertVector acc r) : c ∈ acc ∨ c = mkVectorEntry r := by
  unfold upsertVector at h
  by_cases ha : (acc.any (fun x => x.id == r.id)) = true
  · rw [if_pos ha] at h
    rcases List.mem_map.1 h with ⟨x, hx, rfl⟩
    by_cases hxr : (x.id == r.id) = true
    · rw [if_pos hxr]
      exact Or.inr rfl
    · rw [if_neg hxr]
      exact Or.inl hx
  · rw [if_neg ha] at h
    rcases List.mem_append.1 h with h | h
    · exact Or.inl h
    · right
      simpa using h

theorem nodup_upsertVector (acc : List Candidate) (r : Candidate)
    (h : (candIds acc).Nodup) : (candIds (upsertVector acc r)).Nodup := by
  unfold upsertVector
  by_cases ha : (acc.any (fun x => x.id == r.id)) = true
  · rw [if_pos ha, candIds_map_of_preserved _ (vecUpd_id r)]
    exact h
  · rw [if_neg ha, candIds_append]
    have hrn : r.id ∉ candIds acc := fun hm => ha ((any_id_true_iff acc r.id).2 hm)
    have he : candIds [mkVectorEntry r] = [r.id] := rfl
    rw [he]
    refine List.nodup_append.2 ⟨h, List.nodup_singleton _, ?_⟩
    intro x hx hx2
    simp only [List.mem_singleton] at hx2
    subst hx2
    exact hrn hx

theorem mem_foldl_upsertVector (vs : List Candidate) :
    ∀ (acc : List Candidate) (i : String),
      i ∈ candIds (vs.foldl upsertVector acc) ↔ i ∈ candIds acc ∨ i ∈ candIds vs := by
  induction vs with
  | nil => intro acc i; simp [candIds]
  | cons v t ih =>
    intro acc i
    rw [List.foldl_cons, ih, mem_upsertVector_ids]
    simp only [candIds, List.map_cons, List.mem_cons]
    tauto

theorem nodup_foldl_upsertVector (vs : List Candidate) :
    ∀ acc : List Candidate, (candIds acc).Nodup →
      (candIds (vs.foldl upsertVector acc)).Nodup := by
  induction vs with
  | nil => intro acc h; exact h
  | cons v t ih =>
    intro acc h
    rw [List.foldl_cons]
    exact ih _ (nodup_upsertVector acc v h)

theorem shape_foldl_upsertVector (vs : List Candidate) :
    ∀ (acc : List Candidate) (c : Candidate), c ∈ vs.foldl upsertVector acc →
      c ∈ acc ∨ ∃ r ∈ vs, c = mkVectorEntry r := by
  induction vs with
  | nil => intro acc c hc; exact Or.inl hc
  | cons v t ih =>
    intro acc c hc
    rw [List.foldl_cons] at hc
    rcases ih _ c hc with h | ⟨r, hr, rfl⟩
    · rcases mem_upsertVector_elem acc v c h with h2 | rfl
      · exact Or.inl h2
      · exact Or.inr ⟨v, List.mem_cons_self _ _, rfl⟩
    · exact Or.inr ⟨r, List.mem_cons_of_mem _ hr, rfl⟩

theorem mem_addFulltextEntry_ids (acc : List Candidate) (r : Candidate) (i : String) :
    i ∈ candIds (addFulltextEntry acc r) ↔ i ∈ candIds acc ∨ i = r.id := by
  unfold addFulltextEntry
  by_cases h : (acc.any (fun x => x.id == r.id)) = true
  · rw [if_pos h, candIds_map_of_preserved _ (ftUpd_id r)]
    have hr := (any_id_true_iff acc r.id).1 h
    constructor
    · exact Or.inl
    · rintro (hi | rfl)
      · exact hi
      · exact hr
  · rw [if_neg h, candIds_append]
    have he : candIds [{ r with vector_score := 0, fulltext_score := r.score, match_type := "fulltext" }] = [r.id] := rfl
    rw [he]
    simp

theorem nodup_addFulltextEntry (acc : List Candidate) (r : Candidate)
    (h : (candIds acc).Nodup) : (candIds (addFulltextEntry acc r)).Nodup := by
  unfold addFulltextEntry
  by_cases ha : (acc.any (fun x => x.id == r.id)) = true
  · rw [if_pos ha, candIds_map_of_preserved _ (ftUpd_id r)]
    exact h
  · rw [if_neg ha, candIds_append]
    have hrn : r.id ∉ candIds acc := fun hm => ha ((any_id_true_iff acc r.id).2 hm)
    have he : candIds [{ r with vector_score := 0, fulltext_score := r.score, match_type := "fulltext" }] = [r.id] := rfl
    rw [he]
    refine List.nodup_append.2 ⟨h, List.nodup_singleton _, ?_⟩
    intro x hx hx2
    simp only [List.mem_singleton] at hx2
    subst hx2
    exact hrn hx

theorem mem_foldl_addFulltextEntry (fs : List Candidate) :
    ∀ (acc : List Candidate) (i : String),
      i ∈ candIds (fs.foldl addFulltextEntry acc) ↔ i ∈ candIds acc ∨ i ∈ candIds fs := by
  induction fs with
  | nil => intro acc i; simp [candIds]
  | cons v t ih =>
    intro acc i
    rw [List.foldl_cons, ih, mem_addFulltextEntry_ids]
    simp only [candIds, List.map_cons, List.mem_cons]
    tauto

theorem nodup_foldl_addFulltextEntry (fs : List Candidate) :
    ∀ acc : List Candidate, (candIds acc).Nodup →
      (candIds (fs.foldl addFulltextEntry acc)).Nodup := by
  induction fs with
  | nil => intro acc h; exact h
  | cons v t ih =>
    intro acc h
    rw [List.foldl_cons]
    exact ih _ (nodup_addFulltextEntry acc v h)

theorem findById_addFulltextEntry_other (acc : List Candidate) (r : Candidate) (i : String)
    (hir : i ≠ r.id) : findById (addFulltextEntry acc r) i = findById acc i := by
  unfold addFulltextEntry
  by_cases ha : (acc.any (fun x => x.id == r.id)) = true
  · rw [if_pos ha, findById_map_of_preserved _ (ftUpd_id r)]
    cases hf : findById acc i with
    | none => rfl
    | some c =>
      have hci : c.id = i := findById_id hf
      have hcr : ¬(c.id == r.id) = true := by
        rw [beq_iff_eq, hci]
        exact hir
      show some (if c.id == r.id then _ else c) = some c
      rw [if_neg hcr]
  · rw [if_neg ha]
    show List.find? (fun c => c.id == i) (acc ++ [_]) = _
    rw [List.find?_append]
    have hone : List.find? (fun c => c.id == i)
        [{ r with vector_score := 0, fulltext_score := r.score, match_type := "fulltext" }] = none := by
      apply List.find?_eq_none.2
      intro x hx hp
      simp only [List.mem_singleton] at hx
      subst hx
      exact hir (beq_iff_eq.1 hp).symm
    rw [hone]
    show (findById acc i).or none = findById acc i
    cases findById acc i <;> rfl

theorem findById_foldl_addFulltextEntry_stable (fs : List Candidate) :
    ∀ (acc : List Candidate) (i : String), i ∉ candIds fs →
      findById (fs.foldl addFulltextEntry acc) i = findById acc i := by
  induction fs with
  | nil => intro acc i _; rfl
  | cons r t ih =>
    intro acc i h
    have hir : i ≠ r.id := by
      intro he
      exact h (by simp [candIds, he])
    have hit : i ∉ candIds t := by
      intro hm
      apply h
      simp only [candIds, List.map_cons, List.mem_cons]
      exact Or.inr (by simpa [candIds] using hm)
    rw [List.foldl_cons, ih _ i hit, findById_addFulltextEntry_other _ _ _ hir]

theorem findById_addFulltextEntry_hit (acc : List Candidate) (r : Candidate)
    (h : r.id ∈ candIds acc) :
    ∃ c, findById (addFulltextEntry acc r) r.id = some c ∧
      c.match_type = "hybrid" ∧ c.id = r.id := by
  unfold addFulltextEntry
  have ha := (any_id_true_iff acc r.id).2 h
  rw [if_pos ha, findById_map_of_preserved _ (ftUpd_id r)]
  rcases findById_isSome_of_mem h with ⟨c0, hc0, hc0i⟩
  rw [hc0]
  have hbeq : (c0.id == r.id) = true := beq_iff_eq.2 hc0i
  refine ⟨_, rfl, ?_, ?_⟩
  · show (if c0.id == r.id then _ else c0).match_type = "hybrid"
    rw [if_pos hbeq]
  · show (if c0.id == r.id then _ else c0).id = r.id
    rw [if_pos hbeq]
    exact hc0i

theorem hybrid_foldl_addFulltextEntry (fs : List Candidate) :
    ∀ (acc : List Candidate) (i : String), i ∈ candIds acc → i ∈ candIds fs →
      ∃ c, findById (fs.foldl addFulltextEntry acc) i = some c ∧
        c.match_type = "hybrid" ∧ c.id = i := by
  induction fs with
  | nil => intro acc i _ h2; simp [candIds] at h2
  | cons r t ih =>
    intro acc i h1 h2
    rw [List.foldl_cons]
    by_cases hir : i = r.id
    · subst hir
      rcases findById_addFulltextEntry_hit acc r h1 with ⟨c, hc, hh, hci⟩
      by_cases hit : r.id ∈ candIds t
      · have hmem : r.id ∈ candIds (addFulltextEntry acc r) :=
          (mem_addFulltextEntry_ids _ _ _).2 (Or.inl h1)
        exact ih _ _ hmem hit
      · rw [findById_foldl_addFulltextEntry_stable t _ _ hit]
        exact ⟨c, hc, hh, hci⟩
    · have h2t : i ∈ candIds t := by
        simp only [candIds, List.map_cons, List.mem_cons] at h2
        rcases h2 with h | h
        · exact absurd h hir
        · simpa [candIds] using h
      have h1' : i ∈ candIds (addFulltextEntry acc r) :=
        (mem_addFulltextEntry_ids _ _ _).2 (Or.inl h1)
      exact ih _ _ h1' h2t

theorem fresh_foldl_addFulltextEntry (fs : List Candidate) :
    ∀ (acc : List Candidate) (i : String), (candIds fs).Nodup →
      i ∉ candIds acc → i ∈ candIds fs →
      ∃ c, findById (fs.foldl addFulltextEntry acc) i = some c ∧
        c.match_type = "fulltext" ∧ c.vector_score = 0 ∧ c.id = i := by
  induction fs with
  | nil => intro acc i _ _ h2; simp [candIds] at h2
  | cons r t ih =>
    intro acc i hnd hna h2
    rw [List.foldl_cons]
    simp only [candIds, List.map_cons, List.nodup_cons] at hnd
    by_cases hir : i = r.id
    · subst hir
      have hanyf : ¬(acc.any (fun x => x.id == r.id)) = true := fun ha =>
        hna ((any_id_true_iff acc r.id).1 ha)
      have hstep : addFulltextEntry acc r =
          acc ++ [{ r with vector_score := 0, fulltext_score := r.score, match_type := "fulltext" }] := by
        unfold addFulltextEntry
        rw [if_neg hanyf]
      have hnt : r.id ∉ candIds t := by simpa [candIds] using hnd.1
      rw [findById_foldl_addFulltextEntry_stable t _ _ hnt, hstep]
      have hfind : findById
          (acc ++ [{ r with vector_score := 0, fulltext_score := r.score, match_type := "fulltext" }]) r.id =
          some { r with vector_score := 0, fulltext_score := r.score, match_type := "fulltext" } := by
        show List.find? (fun c => c.id == r.id) (acc ++ [_]) = _
        rw [List.find?_append,
          show List.find? (fun c => c.id == r.id) acc = none from findById_eq_none_of_not_mem hna,
          List.find?_cons_of_pos]
        · rfl
        · exact beq_self_eq_true r.id
      exact ⟨_, hfind, rfl, rfl, rfl⟩
    · have h2t : i ∈ candIds t := by
        simp only [candIds, List.map_cons, List.mem_cons] at h2
        rcases h2 with h | h
        · exact absurd h hir
        · simpa [candIds] using h
      have hna' : i ∉ candIds (addFulltextEntry acc r) := by
        intro hm
        rcases (mem_addFulltextEntry_ids _ _ _).1 hm with h | h
        · exact hna h
        · exact hir h
      exact ih _ _ (by simpa [candIds] using hnd.2) hna' h2t

/-- C6 amended: after the merge step there is exactly one candidate per id
unconditionally; a candidate whose id came only from the vector list is
`vector` with fulltext score 0, one whose id is in both lists is `hybrid`, and
— provided the lexical list fed to the merge has no duplicate ids — a candidate
whose id is absent from the vector list is `fulltext` with vector score 0, and
`hybrid` marks exactly the ids present in both lists.  (Without that proviso
the equivalence fails: the instructor-filter branch concatenates two lexical
searches, and an id returned twice there is marked `hybrid` with no vector
hit.) -/
theorem C6_merge_provenance :
    ∀ (vs fs : List Candidate),
      (candIds (mergeResults vs fs)).Nodup ∧
      ∀ c ∈ mergeResults vs fs,
        (c.id ∈ candIds vs → c.id ∉ candIds fs →
          c.match_type = "vector" ∧ c.fulltext_score = 0) ∧
        (c.id ∈ candIds vs → c.id ∈ candIds fs → c.match_type = "hybrid") ∧
        ((candIds fs).Nodup → c.id ∉ candIds vs →
          c.match_type = "fulltext" ∧ c.vector_score = 0) ∧
        ((candIds fs).Nodup →
          (c.match_type = "hybrid" ↔ c.id ∈ candIds vs ∧ c.id ∈ candIds fs)) := by
  intro vs fs
  have hVids : ∀ i, i ∈ candIds (vs.foldl upsertVector []) ↔ i ∈ candIds vs := by
    intro i
    rw [mem_foldl_upsertVector]
    simp [candIds]
  have hVnd : (candIds (vs.foldl upsertVector [])).Nodup :=
    nodup_foldl_upsertVector vs [] (by simp [candIds])
  have hMnd : (candIds (mergeResults vs fs)).Nodup :=
    nodup_foldl_addFulltextEntry fs _ hVnd
  refine ⟨hMnd, ?_⟩
  intro c hc
  have hfind : findById (mergeResults vs fs) c.id = some c := findById_of_mem_nodup hMnd hc
  have hmem_ids : c.id ∈ candIds (mergeResults vs fs) := mem_candIds.2 ⟨c, hc, rfl⟩
  have htot : c.id ∈ candIds vs ∨ c.id ∈ candIds fs := by
    rcases (mem_foldl_addFulltextEntry fs _ c.id).1 hmem_ids with h | h
    · exact Or.inl ((hVids c.id).1 h)
    · exact Or.inr h
  have Hvec : c.id ∈ candIds vs → c.id ∉ candIds fs →
      c.match_type = "vector" ∧ c.fulltext_score = 0 := by
    intro _ hnf
    have hstable := findById_foldl_addFulltextEntry_stable fs (vs.foldl upsertVector []) c.id hnf
    rw [mergeResults] at hfind
    rw [hstable] at hfind
    rcases shape_foldl_upsertVector vs [] c (mem_of_findById hfind) with h | ⟨r, _, rfl⟩
    · cases h
    · exact ⟨rfl, rfl⟩
  have Hhyb : c.id ∈ candIds vs → c.id ∈ candIds fs → c.match_type = "hybrid" := by
    intro hv hf
    rcases hybrid_foldl_addFulltextEntry fs _ c.id ((hVids c.id).2 hv) hf with ⟨c2, hc2, hh, _⟩
    have : c = c2 := by
      have h2 := hfind.symm.trans hc2
      exact Option.some.inj h2
    rw [this]
    exact hh
  have Hlex : (candIds fs).Nodup → c.id ∉ candIds vs →
      c.match_type = "fulltext" ∧ c.vector_score = 0 := by
    intro hndfs hnv
    have hf : c.id ∈ candIds fs := htot.resolve_left hnv
    have hnV : c.id ∉ candIds (vs.foldl upsertVector []) := fun h => hnv ((hVids c.id).1 h)
    rcases fresh_foldl_addFulltextEntry fs _ c.id hndfs hnV hf with ⟨c2, hc2, hmt, hvs, _⟩
    have : c = c2 := by
      have h2 := hfind.symm.trans hc2
      exact Option.some.inj h2
    rw [this]
    exact ⟨hmt, hvs⟩
  refine ⟨Hvec, Hhyb, Hlex, ?_⟩
  intro hndfs
  constructor
  · intro hh
    by_cases hv : c.id ∈ candIds vs
    · by_cases hf : c.id ∈ candIds fs
      · exact ⟨hv, hf⟩
      · have h2 := (Hvec hv hf).1
        rw [h2] at hh
        exact absurd hh (by decide)
    · have h2 := (Hlex hndfs hv).1
      rw [h2] at hh
      exact absurd hh (by decide)
  · rintro ⟨hv, hf⟩
    exact Hhyb hv hf

/-- Witness for C6 amended: merging one vector hit X with one lexical hit
carrying the same id yields a single `hybrid` candidate. -/
theorem C6_merge_provenance_witness :
    (mergeResults exampleVectorHits exampleLexicalHits).headI.match_type = "hybrid" :=
  ((C6_merge_provenance exampleVectorHits exampleLexicalHits).2
      (mergeResults exampleVectorHits exampleLexicalHits).headI (by decide)).2.1
    (by decide) (by decide)
